import Mathlib

/-!
Verification of the Manifold Bingo 2026 viewer core (`src/app.js`).

Shallow embedding conventions:
* JavaScript numbers holding probabilities are modelled as `ℚ`
  (the spec states all formulas exactly over probabilities in `[0,1]`).
* Timestamps (milliseconds since epoch, `Date.now()`) are modelled as `ℤ`;
  functions that read `Date.now()` internally take `now : ℤ` explicitly.
* A JavaScript value that may be `null`/`undefined` is an `Option`;
  the nullish chain `a?.b ?? c` is `Option.bind`/`Option.getD`,
  while the truthiness chain `a || b` on numbers treats `0` as missing.
* A card grid is `Fin 25 → Cell`, using the data-model invariant that a
  grid has exactly 25 cells.
-/

namespace ManifoldBingo

/-- The 12 winning lines (5 rows, 5 columns, 2 diagonals), `LINES` in app.js. -/
def LINES : List (String × List (Fin 25)) :=
  [("Row 1", [0, 1, 2, 3, 4]),
   ("Row 2", [5, 6, 7, 8, 9]),
   ("Row 3", [10, 11, 12, 13, 14]),
   ("Row 4", [15, 16, 17, 18, 19]),
   ("Row 5", [20, 21, 22, 23, 24]),
   ("Col 1", [0, 5, 10, 15, 20]),
   ("Col 2", [1, 6, 11, 16, 21]),
   ("Col 3", [2, 7, 12, 17, 22]),
   ("Col 4", [3, 8, 13, 18, 23]),
   ("Col 5", [4, 9, 14, 19, 24]),
   ("Diag A", [0, 6, 12, 18, 24]),
   ("Diag B", [4, 8, 12, 16, 20])]

/-- `FREE_SPACE_INDEX = 12` in app.js. -/
def FREE_SPACE_INDEX : Fin 25 := 12

/-- The inner loop of `approximateWinProb`: product of the five cell
probabilities of one line (`lineProb` accumulator in app.js). -/
def lineProb (probs : Fin 25 → ℚ) (indices : List (Fin 25)) : ℚ :=
  indices.foldl (fun acc idx => acc * probs idx) 1

/-- `approximateWinProb` (app.js lines 1444-1458): win probability under the
cross-line independence assumption, `1 - prod over lines of (1 - lineProb)`. -/
def approximateWinProb (probs : Fin 25 → ℚ) : ℚ :=
  1 - LINES.foldl (fun acc line => acc * (1 - lineProb probs line.2)) 1

/-- The example input of claim C1: cells 0-4 have probability 9/10,
every other cell (including the free cell) has probability 0. -/
def row1Example : Fin 25 → ℚ := fun i => if i.val ≤ 4 then 9 / 10 else 0

theorem lineProb_eq_prod (probs : Fin 25 → ℚ) (indices : List (Fin 25)) :
    lineProb probs indices = (indices.map probs).prod := by
  rw [lineProb, List.prod_eq_foldl, List.foldl_map]

theorem approximateWinProb_eq_prod (probs : Fin 25 → ℚ) :
    approximateWinProb probs =
      1 - (LINES.map (fun line => 1 - (line.2.map probs).prod)).prod := by
  rw [approximateWinProb, List.prod_eq_foldl, List.foldl_map]
  simp only [lineProb_eq_prod]

/-- Claim C1: for every 25-vector of cell probabilities, `approximateWinProb`
returns exactly 1 minus the product, over the 12 lines, of (1 minus the
product of that line's five cell probabilities); and on the vector where
cells 0-4 have probability 0.9 and all other cells 0.0 it returns exactly
`1 - (1 - 0.9^5) = 0.59049`. -/
theorem approximateWinProb_formula :
    (∀ probs : Fin 25 → ℚ,
      approximateWinProb probs =
        1 - (LINES.map (fun line => 1 - (line.2.map probs).prod)).prod) ∧
    approximateWinProb row1Example = 59049 / 100000 := by
  refine ⟨approximateWinProb_eq_prod, ?_⟩
  simp only [approximateWinProb, LINES, lineProb, row1Example, List.foldl,
    OfNat.ofNat, Fin.instOfNat, Fin.val_ofNat']
  norm_num

/-! ### 24-hour statistics (`computeMarket24hStats`, app.js lines 893-952) -/

/-- One point of a bet-history timeline: `{time, prob}`. -/
structure BetPoint where
  time : ℤ
  prob : ℚ
deriving DecidableEq

/-- The result record of `computeMarket24hStats`; `null` fields are `none`. -/
structure Stats24h where
  prob24hAgo : Option ℚ
  high24h : Option ℚ
  low24h : Option ℚ
  change24h : Option ℚ
  hasActivity : Bool
deriving DecidableEq

/-- `oneDayAgo = now - 24 * 60 * 60 * 1000` in `computeMarket24hStats`. -/
def oneDayAgo (now : ℤ) : ℤ := now - 24 * 60 * 60 * 1000

/-- `entriesIn24h = timeline.filter(t => t.time >= oneDayAgo)` in app.js. -/
def entriesIn24h (timeline : List BetPoint) (now : ℤ) : List BetPoint :=
  timeline.filter (fun t => oneDayAgo now ≤ t.time)

/-- `beforeWindow = timeline.filter(t => t.time < oneDayAgo)` in app.js
(computed identically in both branches of the source). -/
def beforeWindow (timeline : List BetPoint) (now : ℤ) : List BetPoint :=
  timeline.filter (fun t => t.time < oneDayAgo now)

/-- The `prob24hAgo` computation of `computeMarket24hStats` (app.js lines
911-928), with its two branches kept exactly as in the source.  The
`Option.elim 0` defaults model array indexing that the source only performs
on arrays it has just checked to be non-empty. -/
def prob24hAgoCalc (timeline : List BetPoint) (now : ℤ) : ℚ :=
  if (entriesIn24h timeline now).isEmpty then
    match (beforeWindow timeline now).getLast? with
    | some e => e.prob
    | none => timeline.head?.elim 0 BetPoint.prob
  else
    match (beforeWindow timeline now).getLast? with
    | some e => e.prob
    | none => (entriesIn24h timeline now).head?.elim 0 BetPoint.prob

/-- `computeMarket24hStats(timeline, currentProb)` (app.js lines 893-952).
The call `Date.now()` is modelled by the explicit argument `now`. -/
def computeMarket24hStats (timeline : List BetPoint) (currentProb : ℚ) (now : ℤ) :
    Stats24h :=
  if timeline.isEmpty then
    { prob24hAgo := none, high24h := none, low24h := none, change24h := none,
      hasActivity := false }
  else
    { prob24hAgo := some (prob24hAgoCalc timeline now)
      high24h :=
        if (entriesIn24h timeline now).isEmpty then some currentProb
        else ((entriesIn24h timeline now).map BetPoint.prob ++ [currentProb]).max?
      low24h :=
        if (entriesIn24h timeline now).isEmpty then some currentProb
        else ((entriesIn24h timeline now).map BetPoint.prob ++ [currentProb]).min?
      change24h := some (currentProb - prob24hAgoCalc timeline now)
      hasActivity := !(entriesIn24h timeline now).isEmpty }

/-- The `prob_24h_ago` value as worded by the spec: the latest entry strictly
before the window if any, else the earliest entry within the window if any,
else the first timeline entry. -/
def prob24hAgoDescribed (timeline : List BetPoint) (now : ℤ) : ℚ :=
  match (beforeWindow timeline now).getLast? with
  | some e => e.prob
  | none =>
    match (entriesIn24h timeline now).head? with
    | some e => e.prob
    | none => timeline.head?.elim 0 BetPoint.prob

/-- The `TimeStats` record as worded by the spec (claim C2): nulls on an empty
timeline; otherwise the three-tier `prob_24h_ago` fallback, high/low over the
within-window probabilities together with `currentProb`, activity exactly when
the window is non-empty, and `change_24h = currentProb - prob_24h_ago`. -/
def stats24hDescribed (timeline : List BetPoint) (currentProb : ℚ) (now : ℤ) :
    Stats24h :=
  if timeline.isEmpty then
    { prob24hAgo := none, high24h := none, low24h := none, change24h := none,
      hasActivity := false }
  else
    { prob24hAgo := some (prob24hAgoDescribed timeline now)
      high24h := (currentProb :: (entriesIn24h timeline now).map BetPoint.prob).max?
      low24h := (currentProb :: (entriesIn24h timeline now).map BetPoint.prob).min?
      change24h := some (currentProb - prob24hAgoDescribed timeline now)
      hasActivity := !(entriesIn24h timeline now).isEmpty }

theorem prob24hAgoCalc_eq_described (timeline : List BetPoint) (now : ℤ) :
    prob24hAgoCalc timeline now = prob24hAgoDescribed timeline now := by
  rw [prob24hAgoCalc, prob24hAgoDescribed]
  cases hb : (beforeWindow timeline now).getLast? with
  | some e =>
    by_cases hw : (entriesIn24h timeline now).isEmpty = true
    · rw [if_pos hw]
    · rw [if_neg hw]
  | none =>
    by_cases hw : (entriesIn24h timeline now).isEmpty = true
    · rw [if_pos hw]
      have hh : (entriesIn24h timeline now).head? = none := by
        rw [List.isEmpty_iff] at hw
        rw [hw]; rfl
      rw [hh]
    · rw [if_neg hw]
      cases hh : (entriesIn24h timeline now).head? with
      | some y => rfl
      | none =>
        exact absurd (List.isEmpty_iff.mpr (List.head?_eq_none_iff.mp hh)) hw

theorem max?_append_singleton (l : List ℚ) (c : ℚ) :
    (l ++ [c]).max? = (c :: l).max? := by
  cases l with
  | nil => rfl
  | cons x xs =>
    simp only [List.cons_append, List.max?_cons', List.foldl_append, List.foldl_cons,
      List.foldl_nil]
    rw [List.foldl_assoc]
    rw [max_comm]

theorem min?_append_singleton (l : List ℚ) (c : ℚ) :
    (l ++ [c]).min? = (c :: l).min? := by
  cases l with
  | nil => rfl
  | cons x xs =>
    simp only [List.cons_append, List.min?_cons', List.foldl_append, List.foldl_cons,
      List.foldl_nil]
    rw [List.foldl_assoc]
    rw [min_comm]

theorem time_le_getLast_of_ascending :
    ∀ (l : List BetPoint), l.Pairwise (fun a b => a.time ≤ b.time) →
      ∀ e ∈ l, ∀ x, l.getLast? = some x → e.time ≤ x.time := by
  intro l
  induction l with
  | nil => intro _ e he; simp at he
  | cons a t ih =>
    intro h e he x hx
    rcases List.pairwise_cons.mp h with ⟨ha, ht⟩
    cases t with
    | nil =>
      simp only [List.getLast?_singleton, Option.some.injEq] at hx
      simp only [List.mem_singleton] at he
      subst he; subst hx; exact le_refl _
    | cons b t2 =>
      rw [List.getLast?_cons_cons] at hx
      rcases List.mem_cons.mp he with rfl | he2
      · exact ha x (List.mem_of_getLast?_eq_some hx)
      · exact ih ht e he2 x hx

theorem head_time_le_of_ascending :
    ∀ (l : List BetPoint), l.Pairwise (fun a b => a.time ≤ b.time) →
      ∀ e ∈ l, ∀ x, l.head? = some x → x.time ≤ e.time := by
  intro l h e he x hx
  cases l with
  | nil => simp at he
  | cons a t =>
    simp only [List.head?_cons, Option.some.injEq] at hx
    subst hx
    rcases List.pairwise_cons.mp h with ⟨ha, _⟩
    rcases List.mem_cons.mp he with rfl | he2
    · exact le_refl _
    · exact ha e he2

/-- Claim C2: for every ascending timeline, `computeMarket24hStats` returns all
nulls and no activity on an empty timeline; otherwise `prob24hAgo` is the prob
of the latest entry before the 24h window, else the earliest entry within it,
else the first timeline entry; `high24h`/`low24h` are the max/min over the
within-window probs together with `currentProb` (just `currentProb` when the
window is empty); `hasActivity` holds exactly when the window is non-empty; and
`change24h = currentProb - prob24hAgo`.  Under the ascending hypothesis the
last element of `before` really is its latest entry, and the head of `within`
its earliest. -/
theorem computeMarket24hStats_spec (timeline : List BetPoint) (currentProb : ℚ)
    (now : ℤ) (hasc : timeline.Pairwise (fun a b => a.time ≤ b.time)) :
    computeMarket24hStats timeline currentProb now =
      stats24hDescribed timeline currentProb now ∧
    (∀ e ∈ beforeWindow timeline now, ∀ x,
      (beforeWindow timeline now).getLast? = some x → e.time ≤ x.time) ∧
    (∀ e ∈ entriesIn24h timeline now, ∀ x,
      (entriesIn24h timeline now).head? = some x → x.time ≤ e.time) := by
  refine ⟨?_, ?_, ?_⟩
  · rw [computeMarket24hStats, stats24hDescribed]
    by_cases hnil : timeline.isEmpty = true
    · rw [if_pos hnil, if_pos hnil]
    · rw [if_neg hnil, if_neg hnil, prob24hAgoCalc_eq_described]
      by_cases hw : (entriesIn24h timeline now).isEmpty = true
      · rw [if_pos hw, if_pos hw, List.isEmpty_iff.mp hw]
        rfl
      · rw [if_neg hw, if_neg hw, max?_append_singleton, min?_append_singleton]
  · intro e he x hx
    exact time_le_getLast_of_ascending _ (List.Pairwise.filter _ hasc) e he x hx
  · intro e he x hx
    exact head_time_le_of_ascending _ (List.Pairwise.filter _ hasc) e he x hx

/-- The spec's worked 24h example: entries 30h and 10h old, current prob 0.6. -/
def timelineExample : List BetPoint :=
  [⟨200000000000 - 108000000, 3 / 10⟩, ⟨200000000000 - 36000000, 1 / 2⟩]

theorem computeMarket24hStats_spec_witness :
    timelineExample.Pairwise (fun a b => a.time ≤ b.time) ∧
    computeMarket24hStats timelineExample (3 / 5) 200000000000 =
      { prob24hAgo := some (3 / 10), high24h := some (3 / 5), low24h := some (1 / 2),
        change24h := some (3 / 10), hasActivity := true } := by
  constructor
  · decide
  · have h :=
      (computeMarket24hStats_spec timelineExample (3 / 5) 200000000000 (by decide)).1
    rw [h]
    rw [stats24hDescribed]
    norm_num [timelineExample, prob24hAgoDescribed, beforeWindow, entriesIn24h,
      oneDayAgo, List.filter]

/-! ### Permutation invariance of the estimator (claim C9) -/

/-- The 12 lines of `LINES`, as a multiset of index multisets (the order of
the lines and of the cells within a line is irrelevant to the estimator). -/
def lineMultisets : Multiset (Multiset (Fin 25)) :=
  ↑(LINES.map (fun line => (↑line.2 : Multiset (Fin 25))))

theorem approximateWinProb_eq_multiset (probs : Fin 25 → ℚ) :
    approximateWinProb probs =
      1 - (lineMultisets.map (fun m => 1 - (m.map probs).prod)).prod := by
  rw [approximateWinProb_eq_prod, lineMultisets, Multiset.map_coe, Multiset.prod_coe,
    List.map_map]
  congr 2

/-- Claim C9: for every permutation of the 25 grid indices that maps the
multiset of 12 lines onto itself, `approximateWinProb` applied to the
reindexed probability vector equals `approximateWinProb` applied to the
original vector. -/
theorem approximateWinProb_permutation_invariant (pi : Fin 25 → Fin 25)
    (probs : Fin 25 → ℚ) (hbij : Function.Bijective pi)
    (hlines : lineMultisets.map (Multiset.map pi) = lineMultisets) :
    approximateWinProb (fun i => probs (pi i)) = approximateWinProb probs := by
  rw [approximateWinProb_eq_multiset, approximateWinProb_eq_multiset]
  have h1 : ∀ m : Multiset (Fin 25),
      Multiset.map (fun i => probs (pi i)) m = Multiset.map probs (Multiset.map pi m) := by
    intro m
    rw [Multiset.map_map]
    rfl
  have h2 :
      lineMultisets.map (fun m => 1 - (Multiset.map (fun i => probs (pi i)) m).prod) =
        (lineMultisets.map (Multiset.map pi)).map (fun m => 1 - (Multiset.map probs m).prod) := by
    rw [Multiset.map_map]
    apply Multiset.map_congr rfl
    intro m _
    rw [Function.comp_apply, h1]
  rw [h2, hlines]

/-- The transpose of the 5-by-5 grid: cell `(r, c)` goes to cell `(c, r)`.
It swaps rows with columns and fixes both diagonals and the free cell. -/
def transposeIdx (i : Fin 25) : Fin 25 :=
  ⟨5 * (i.val % 5) + i.val / 5, by omega⟩

theorem approximateWinProb_permutation_invariant_witness :
    Function.Bijective transposeIdx ∧
    lineMultisets.map (Multiset.map transposeIdx) = lineMultisets ∧
    approximateWinProb (fun i => row1Example (transposeIdx i)) =
      approximateWinProb row1Example :=
  ⟨by decide, by decide,
    approximateWinProb_permutation_invariant transposeIdx row1Example
      (by decide) (by decide)⟩

/-! ### Data model: cells, cards and per-market live data -/

/-- One grid cell of a card (data model of spec section 3). -/
structure Cell where
  question : String
  slug : String
  url : Option String
  resolved : Option Bool
  prob : ℚ
  contract_id : Option String
deriving DecidableEq

/-- A card snapshot.  The grid is `Fin 25 → Cell` per the 25-cell invariant;
`none` models a card delivered without a grid. -/
structure Card where
  card_id : String
  user_handle : String
  status : String
  grid : Option (Fin 25 → Cell)
  win_probability : ℚ

/-- One value of the `marketDataMap` built in `displayMarketActivity`
(app.js lines 1090-1096): `{currentProb, stats}`. -/
structure MarketData where
  currentProb : ℚ
  stats : Option Stats24h

/-- A card decorated by `computeCardStats`: the `...card` spread is the
`base` field, plus the four derived live fields. -/
structure LiveCard where
  base : Card
  liveWinProb : ℚ
  change24h : Option ℚ
  high24h : Option ℚ
  low24h : Option ℚ

/-- The pass-through decoration for non-active or grid-less cards. -/
def passthroughCard (card : Card) : LiveCard :=
  { base := card, liveWinProb := card.win_probability,
    change24h := none, high24h := none, low24h := none }

/-- The `liveProbs` vector of `computeCardStats` (app.js lines 300-304):
free cell 1.0, else `marketData?.currentProb ?? cell.prob`. -/
def liveProbVec (grid : Fin 25 → Cell) (m : String → Option MarketData) :
    Fin 25 → ℚ := fun i =>
  if i = FREE_SPACE_INDEX then 1
  else ((m (grid i).slug).map MarketData.currentProb).getD (grid i).prob

/-- The `probs24hAgo` vector (app.js lines 307-311):
free cell 1.0, else `marketData?.stats?.prob24hAgo ?? cell.prob`. -/
def agoProbVec (grid : Fin 25 → Cell) (m : String → Option MarketData) :
    Fin 25 → ℚ := fun i =>
  if i = FREE_SPACE_INDEX then 1
  else (((m (grid i).slug).bind MarketData.stats).bind Stats24h.prob24hAgo).getD
    (grid i).prob

/-- The `highProbs` vector (app.js lines 314-318). -/
def highProbVec (grid : Fin 25 → Cell) (m : String → Option MarketData) :
    Fin 25 → ℚ := fun i =>
  if i = FREE_SPACE_INDEX then 1
  else (((m (grid i).slug).bind MarketData.stats).bind Stats24h.high24h).getD
    (grid i).prob

/-- The `lowProbs` vector (app.js lines 321-325). -/
def lowProbVec (grid : Fin 25 → Cell) (m : String → Option MarketData) :
    Fin 25 → ℚ := fun i =>
  if i = FREE_SPACE_INDEX then 1
  else (((m (grid i).slug).bind MarketData.stats).bind Stats24h.low24h).getD
    (grid i).prob

/-- `computeCardStats(cards, marketDataMap)` (app.js lines 293-335). -/
def computeCardStats (cards : List Card) (m : String → Option MarketData) :
    List LiveCard :=
  cards.map fun card =>
    match card.grid with
    | none => passthroughCard card
    | some grid =>
      if card.status ≠ "active" then passthroughCard card
      else
        { base := card
          liveWinProb := approximateWinProb (liveProbVec grid m)
          change24h := some (approximateWinProb (liveProbVec grid m) -
            approximateWinProb (agoProbVec grid m))
          high24h := some (approximateWinProb (highProbVec grid m))
          low24h := some (approximateWinProb (lowProbVec grid m)) }

/-- The decoration of one card as worded by claim C3: active cards with a
grid get the estimator applied to the four fallback vectors, everything
else passes through with the stored value and null stats. -/
def cardStatsDescribed (card : Card) (m : String → Option MarketData) : LiveCard :=
  match card.grid with
  | some grid =>
    if card.status = "active" then
      { base := card
        liveWinProb := approximateWinProb (liveProbVec grid m)
        change24h := some (approximateWinProb (liveProbVec grid m) -
          approximateWinProb (agoProbVec grid m))
        high24h := some (approximateWinProb (highProbVec grid m))
        low24h := some (approximateWinProb (lowProbVec grid m)) }
    else passthroughCard card
  | none => passthroughCard card

/-- Claim C3: `computeCardStats` decorates every non-active or grid-less card
with its stored `win_probability` and null stats, and every active card with
a grid with the estimator applied to the live / 24h-ago / high / low fallback
vectors (free cell 1.0, missing live data falling back to the stored per-cell
prob), with `change24h` the difference of the live and 24h-ago estimates. -/
theorem computeCardStats_spec (cards : List Card) (m : String → Option MarketData) :
    computeCardStats cards m = cards.map (fun card => cardStatsDescribed card m) := by
  rw [computeCardStats]
  apply List.map_congr_left
  intro card _
  rw [cardStatsDescribed]
  cases card.grid with
  | none => rfl
  | some grid =>
    dsimp only
    by_cases h : card.status = "active"
    · rw [if_pos h, if_neg (not_not_intro h)]
    · rw [if_neg h, if_pos h]

/-! ### Baseline deltas (`calculateCardDeltas`, app.js lines 166-180) -/

/-- One entry of the persisted baseline mapping: `{win_probability, timestamp}`. -/
structure BaselineEntry where
  win_probability : ℚ
  timestamp : ℤ
deriving DecidableEq

/-- A card decorated by `calculateCardDeltas` (`{...card, delta, hoursSince}`). -/
structure DeltaCard where
  base : Card
  delta : Option ℚ
  hoursSince : Option ℚ

/-- `calculateCardDeltas(cards)` (app.js lines 166-180).  The stored mapping
read by `getLastSeenProbs()` is the explicit argument `lastSeen`, and
`Date.now()` is the explicit argument `now`. -/
def calculateCardDeltas (cards : List Card)
    (lastSeen : String → Option BaselineEntry) (now : ℤ) : List DeltaCard :=
  cards.map fun card =>
    match lastSeen card.card_id with
    | some last =>
      { base := card
        delta := some (card.win_probability - last.win_probability)
        hoursSince := some (((now - last.timestamp : ℤ) : ℚ) / (1000 * 60 * 60)) }
    | none => { base := card, delta := none, hoursSince := none }

/-- The decoration of one card as worded by claim C8. -/
def cardDeltaDescribed (card : Card) (lastSeen : String → Option BaselineEntry)
    (now : ℤ) : DeltaCard :=
  match lastSeen card.card_id with
  | none => { base := card, delta := none, hoursSince := none }
  | some last =>
    { base := card
      delta := some (card.win_probability - last.win_probability)
      hoursSince := some (((now - last.timestamp : ℤ) : ℚ) / (1000 * 60 * 60)) }

/-- The example card of claim C8: current `win_probability = 0.55`. -/
def deltaExampleCard : Card :=
  { card_id := "c1", user_handle := "alice", status := "active", grid := none,
    win_probability := 11 / 20 }

/-- The example baseline of claim C8: `0.4` saved at time `T0`. -/
def deltaExampleBaseline : String → Option BaselineEntry := fun cid =>
  if cid = "c1" then some { win_probability := 2 / 5, timestamp := 1700000000000 }
  else none

/-- Claim C8: `calculateCardDeltas` decorates each card having a baseline
entry with `delta = win_probability - baseline.win_probability` and
`hoursSince` the elapsed milliseconds divided by 3600000, and each card
without an entry with both fields null; on the example (baseline 0.4 at
`T0`, current 0.55 at `T0 + 2h`) it yields `delta = 0.15`, `hoursSince = 2`. -/
theorem calculateCardDeltas_spec (cards : List Card)
    (lastSeen : String → Option BaselineEntry) (now : ℤ) :
    calculateCardDeltas cards lastSeen now =
      cards.map (fun card => cardDeltaDescribed card lastSeen now) ∧
    calculateCardDeltas [deltaExampleCard] deltaExampleBaseline
        (1700000000000 + 7200000) =
      [{ base := deltaExampleCard, delta := some (3 / 20), hoursSince := some 2 }] := by
  constructor
  · rw [calculateCardDeltas]
    apply List.map_congr_left
    intro card _
    rw [cardDeltaDescribed]
    cases lastSeen card.card_id with
    | none => rfl
    | some last => rfl
  · rw [calculateCardDeltas]
    simp only [List.map_cons, List.map_nil, deltaExampleBaseline, deltaExampleCard,
      if_pos]
    norm_num

/-! ### Live-price layer (`fetchLivePrices`, app.js lines 1329-1383, and the
market-activity merge, app.js lines 1027-1054) -/

/-- A response of the live-probability endpoint
(`{probability | prob, id, isResolved, resolution}`); every field may be
absent. -/
structure LiveMarket where
  probability : Option ℚ
  prob : Option ℚ
  id : Option String
  isResolved : Option Bool
  resolution : Option String
deriving DecidableEq

/-- JavaScript `a || b` on an optionally-present number: `a` is kept only
when it is present and non-zero (`0`, `null` and `undefined` are falsy). -/
def jsOrQ (a : Option ℚ) (b : ℚ) : ℚ :=
  match a with
  | some q => if q = 0 then b else q
  | none => b

/-- The per-cell live probability of `fetchLivePrices` (app.js line 1350):
`market.probability || market.prob || card.grid[i].prob`, with a failed fetch
falling back to the stored cell probability (line 1357). -/
def livePriceOfCell (result : Option LiveMarket) (cell : Cell) : ℚ :=
  match result with
  | some market => jsOrQ market.probability (jsOrQ market.prob cell.prob)
  | none => cell.prob

/-- The cell update performed by `fetchLivePrices` (app.js line 1355):
`card.grid[i].contract_id = market.id` whenever a live result arrived. -/
def updateCellContract (result : Option LiveMarket) (cell : Cell) : Cell :=
  match result with
  | some market => { cell with contract_id := market.id }
  | none => cell

/-- The grid as it stands after `fetchLivePrices` ran over `card.grid`
(state passing for the in-place `forEach` of app.js lines 1348-1359). -/
def fetchLivePricesGrid (grid : Fin 25 → Cell)
    (results : Fin 25 → Option LiveMarket) : Fin 25 → Cell :=
  fun i => updateCellContract (results i) (grid i)

/-- The `liveProbs` array built by the same loop. -/
def fetchLivePricesProbs (grid : Fin 25 → Cell)
    (results : Fin 25 → Option LiveMarket) : Fin 25 → ℚ :=
  fun i => livePriceOfCell (results i) (grid i)

/-- One market entry of the activity feed (`collectUniqueMarkets` value shape,
app.js lines 980-990, plus the fields added by the live merge). -/
structure MarketSnap where
  slug : String
  question : String
  cardIds : List String
  cardHandles : List String
  currentProb : ℚ
  url : String
  resolved : Option Bool
  contractId : Option String
  isResolved : Option Bool
  resolution : Option String
deriving DecidableEq

/-- The market-activity live merge (app.js lines 1035-1042):
`currentProb: data.probability || data.prob || market.currentProb` plus the
contract id and resolution fields.  (The `liveData` field only drives
rendering and is not modelled.) -/
def updateMarketWithLive (market : MarketSnap) (data : LiveMarket) : MarketSnap :=
  { market with
    currentProb := jsOrQ data.probability (jsOrQ data.prob market.currentProb)
    contractId := data.id
    isResolved := data.isResolved
    resolution := data.resolution }

/-- Claim C10: a successful live response whose probability is exactly 0 (and
whose `prob` field is absent or 0) is treated as missing by the `||` merges:
both the market-activity merge and the per-card live-price merge keep the
stored probability instead of the live value 0. -/
theorem zero_live_prob_keeps_stored (market : MarketSnap) (data : LiveMarket)
    (cell : Cell) (hp : data.probability = some 0)
    (hq : data.prob = none ∨ data.prob = some 0) :
    (updateMarketWithLive market data).currentProb = market.currentProb ∧
    livePriceOfCell (some data) cell = cell.prob := by
  rcases hq with hq | hq <;>
    simp [updateMarketWithLive, livePriceOfCell, jsOrQ, hp, hq]

/-- A market entry whose stored probability is 0.7. -/
def staleMarketExample : MarketSnap :=
  { slug := "s", question := "q", cardIds := [], cardHandles := [],
    currentProb := 7 / 10, url := "u", resolved := none, contractId := none,
    isResolved := none, resolution := none }

/-- A live response reporting that the market dropped to exactly 0. -/
def zeroProbResponse : LiveMarket :=
  { probability := some 0, prob := none, id := some "m1", isResolved := some false,
    resolution := none }

/-- A cell whose stored probability is 0.7. -/
def staleCellExample : Cell :=
  { question := "q", slug := "s", url := none, resolved := none, prob := 7 / 10,
    contract_id := none }

theorem zero_live_prob_keeps_stored_witness :
    (updateMarketWithLive staleMarketExample zeroProbResponse).currentProb =
      staleMarketExample.currentProb ∧
    livePriceOfCell (some zeroProbResponse) staleCellExample = staleCellExample.prob :=
  zero_live_prob_keeps_stored staleMarketExample zeroProbResponse staleCellExample
    rfl (Or.inl rfl)

/-- The grid of the claim C5 counterexample: no cell has a contract id yet. -/
def freshGridExample : Fin 25 → Cell := fun _ =>
  { question := "q", slug := "s", url := none, resolved := none, prob := 1 / 2,
    contract_id := none }

/-- Live results for the counterexample: every fetch succeeded and returned
contract id `abc`. -/
def liveResultsExample : Fin 25 → Option LiveMarket := fun _ =>
  some { probability := some (3 / 5), prob := none, id := some "abc",
         isResolved := some false, resolution := none }

/-- Counterexample to claim C5: `fetchLivePrices` does mutate a stored field
of the input card snapshot — it writes the fetched contract id into
`card.grid[i].contract_id` (app.js line 1355), so the updated cell differs
from the original cell. -/
theorem fetchLivePrices_mutates_contract_id :
    fetchLivePricesGrid freshGridExample liveResultsExample 0 ≠ freshGridExample 0 ∧
    (fetchLivePricesGrid freshGridExample liveResultsExample 0).contract_id =
      some "abc" ∧
    (freshGridExample 0).contract_id = none := by
  refine ⟨fun h => ?_, rfl, rfl⟩
  have h2 := congrArg Cell.contract_id h
  simp [fetchLivePricesGrid, updateCellContract, freshGridExample,
    liveResultsExample] at h2

theorem computeCardStats_preserves_base (cards : List Card)
    (m : String → Option MarketData) :
    (computeCardStats cards m).map LiveCard.base = cards := by
  rw [computeCardStats, List.map_map]
  conv_rhs => rw [← List.map_id cards]
  apply List.map_congr_left
  intro card _
  simp only [Function.comp_apply, id_eq]
  cases card.grid with
  | none => rfl
  | some grid =>
    dsimp only
    by_cases h : card.status = "active"
    · rw [if_neg (not_not_intro h)]
    · rw [if_pos h]
      rfl

theorem calculateCardDeltas_preserves_base (cards : List Card)
    (lastSeen : String → Option BaselineEntry) (now : ℤ) :
    (calculateCardDeltas cards lastSeen now).map DeltaCard.base = cards := by
  rw [calculateCardDeltas, List.map_map]
  conv_rhs => rw [← List.map_id cards]
  apply List.map_congr_left
  intro card _
  simp only [Function.comp_apply, id_eq]
  cases lastSeen card.card_id with
  | none => rfl
  | some last => rfl

/-- Amended claim C5: `computeCardStats` and `calculateCardDeltas` only layer
derived fields on top of unchanged card snapshots, and `fetchLivePrices`
changes nothing of any cell except its `contract_id` field, which it
overwrites with the fetched market id. -/
theorem live_layer_mutation_scope (cards : List Card)
    (m : String → Option MarketData) (lastSeen : String → Option BaselineEntry)
    (now : ℤ) (grid : Fin 25 → Cell) (results : Fin 25 → Option LiveMarket)
    (i : Fin 25) :
    (computeCardStats cards m).map LiveCard.base = cards ∧
    (calculateCardDeltas cards lastSeen now).map DeltaCard.base = cards ∧
    (fetchLivePricesGrid grid results i).question = (grid i).question ∧
    (fetchLivePricesGrid grid results i).slug = (grid i).slug ∧
    (fetchLivePricesGrid grid results i).url = (grid i).url ∧
    (fetchLivePricesGrid grid results i).resolved = (grid i).resolved ∧
    (fetchLivePricesGrid grid results i).prob = (grid i).prob := by
  refine ⟨computeCardStats_preserves_base cards m,
    calculateCardDeltas_preserves_base cards lastSeen now, ?_, ?_, ?_, ?_, ?_⟩ <;>
    · cases h : results i <;> simp [fetchLivePricesGrid, updateCellContract, h]

/-! ### Bet-history cache (`fetchBetHistory`, app.js lines 727-757) -/

/-- A raw bet record from the API; only `createdTime` and `probAfter` are
read, and `probAfter` may be absent. -/
structure Bet where
  createdTime : ℤ
  probAfter : Option ℚ
deriving DecidableEq

/-- One sessionStorage cache entry (`saveSparklineCache`, app.js lines
711-722): `{data, timestamp}`. -/
structure CacheEntry where
  data : List BetPoint
  timestamp : ℤ
deriving DecidableEq

/-- The timeline extraction of `fetchBetHistory` (app.js lines 744-749): keep
the bets whose `probAfter` is present and map them to `{time, prob}` points. -/
def extractTimeline (bets : List Bet) : List BetPoint :=
  bets.filterMap fun bet => bet.probAfter.map fun p => ⟨bet.createdTime, p⟩

/-- `fetchBetHistory(contractId)` (app.js lines 727-757).  The cache read, the
clock and the network are explicit inputs; `network = none` models a non-OK
response or a thrown exception.  The result pairs the returned timeline (or
`none` on network failure) with whether a network fetch was issued. -/
def fetchBetHistory (cache : String → Option CacheEntry) (contractId : String)
    (now : ℤ) (network : Option (List Bet)) : Option (List BetPoint) × Bool :=
  match cache contractId with
  | some cached =>
    if now - cached.timestamp < 5 * 60 * 1000 then (some cached.data, false)
    else
      match network with
      | some bets => (some (extractTimeline bets), true)
      | none => (none, true)
  | none =>
    match network with
    | some bets => (some (extractTimeline bets), true)
    | none => (none, true)

/-- Claim C6: `fetchBetHistory` serves the cached timeline without fetching
exactly when a cache entry exists whose age is strictly below 5 minutes; an
entry aged exactly 5 minutes or more is a miss and triggers a fetch. -/
theorem fetchBetHistory_cache_policy (cache : String → Option CacheEntry)
    (contractId : String) (now : ℤ) (network : Option (List Bet)) :
    ((fetchBetHistory cache contractId now network).2 = false ↔
      ∃ e, cache contractId = some e ∧ now - e.timestamp < 5 * 60 * 1000) ∧
    (∀ e, cache contractId = some e → now - e.timestamp < 5 * 60 * 1000 →
      fetchBetHistory cache contractId now network = (some e.data, false)) ∧
    (∀ e, cache contractId = some e → 5 * 60 * 1000 ≤ now - e.timestamp →
      (fetchBetHistory cache contractId now network).2 = true) := by
  cases hc : cache contractId with
  | none =>
    cases hn : network <;> simp [fetchBetHistory, hc, hn]
  | some e =>
    by_cases ht : now - e.timestamp < 5 * 60 * 1000
    · simp only [fetchBetHistory, hc, if_pos ht]
      refine ⟨by simp; omega, ?_, ?_⟩
      · intro e2 he2
        rw [Option.some.injEq] at he2
        subst he2
        intro _
        rfl
      · intro e2 he2
        rw [Option.some.injEq] at he2
        subst he2
        intro hge
        exact absurd ht (not_lt.mpr hge)
    · cases hn : network <;>
        · simp only [fetchBetHistory, hc, if_neg ht]
          refine ⟨by simp [hn]; omega, ?_, ?_⟩
          · intro e2 he2
            rw [Option.some.injEq] at he2
            subst he2
            intro hlt
            exact absurd hlt ht
          · intro e2 he2 _
            simp [hn]

/-- A concrete cache holding a fresh entry for market `m1`. -/
def cacheExample : String → Option CacheEntry := fun contractId =>
  if contractId = "m1" then some { data := [{ time := 5, prob := 1 / 2 }], timestamp := 1000 }
  else none

theorem fetchBetHistory_cache_policy_witness :
    fetchBetHistory cacheExample "m1" 100000 none =
      (some [{ time := 5, prob := 1 / 2 }], false) :=
  (fetchBetHistory_cache_policy cacheExample "m1" 100000 none).2.1
    { data := [{ time := 5, prob := 1 / 2 }], timestamp := 1000 } rfl (by norm_num)

/-! ### Sort engine (`sortCards`, app.js lines 340-377) -/

/-- The fields read by the leaderboard sort; every one may be absent on a
plain JavaScript object, hence the `Option`s.  `card_id` tags the items. -/
structure SortItem where
  card_id : String
  user_handle : Option String
  liveWinProb : Option ℚ
  win_probability : Option ℚ
  change24h : Option ℚ
  high24h : Option ℚ
  low24h : Option ℚ
deriving DecidableEq

/-- The shared numeric tail of the comparator (app.js lines 374-375):
`0` on equal values, otherwise `multiplier * (valA > valB ? 1 : -1)`. -/
def numCmp (multiplier : Int) (a b : ℚ) : Int :=
  if a = b then 0 else multiplier * (if a > b then 1 else -1)

/-- `multiplier * valA.localeCompare(valB)` (app.js line 350), with
`localeCompare` modelled as lexicographic string comparison. -/
def strCmp (multiplier : Int) (a b : String) : Int :=
  multiplier * (if a < b then -1 else if b < a then 1 else 0)

/-- `valA` for the `handle` column: `(a.user_handle || '').toLowerCase()`. -/
def handleVal (x : SortItem) : String := (x.user_handle.getD "").toLower

/-- `valA` for the `prob` column: `a.liveWinProb ?? a.win_probability ?? 0`. -/
def probVal (x : SortItem) : ℚ := x.liveWinProb.getD (x.win_probability.getD 0)

/-- `valA` for the `change` column: `a.change24h ?? 0`. -/
def changeVal (x : SortItem) : ℚ := x.change24h.getD 0

/-- `valA` for the `upside` column:
`(a.high24h ?? a.liveWinProb ?? 0) - (a.liveWinProb ?? 0)`. -/
def upsideVal (x : SortItem) : ℚ :=
  x.high24h.getD (x.liveWinProb.getD 0) - x.liveWinProb.getD 0

/-- `valA` for the `downside` column:
`(a.liveWinProb ?? 0) - (a.low24h ?? a.liveWinProb ?? 0)`. -/
def downsideVal (x : SortItem) : ℚ :=
  x.liveWinProb.getD 0 - x.low24h.getD (x.liveWinProb.getD 0)

/-- The comparator of `sortCards` (app.js lines 341-376). -/
def sortComparator (column direction : String) (a b : SortItem) : Int :=
  let multiplier : Int := if direction = "desc" then -1 else 1
  match column with
  | "handle" => strCmp multiplier (handleVal a) (handleVal b)
  | "prob" => numCmp multiplier (probVal a) (probVal b)
  | "change" => numCmp multiplier (changeVal a) (changeVal b)
  | "upside" => numCmp multiplier (upsideVal a) (upsideVal b)
  | "downside" => numCmp multiplier (downsideVal a) (downsideVal b)
  | _ => 0

/-- `sortCards(cards, column, direction)`: JavaScript `Array.prototype.sort`
is required by the language spec to be stable, and for a consistent comparator
every stable sort produces the same ordering, so it is modelled by insertion
sort over `comparator(a, b) <= 0`. -/
def sortCards (items : List SortItem) (column direction : String) : List SortItem :=
  items.insertionSort (fun a b => sortComparator column direction a b ≤ 0)

/-- The sort key of each supported column (the `valA` extraction). -/
def sortKey (column : String) (x : SortItem) : String ⊕ ℚ :=
  match column with
  | "handle" => Sum.inl (handleVal x)
  | "prob" => Sum.inr (probVal x)
  | "change" => Sum.inr (changeVal x)
  | "upside" => Sum.inr (upsideVal x)
  | "downside" => Sum.inr (downsideVal x)
  | _ => Sum.inr 0

theorem numCmp_self (m : Int) (v : ℚ) : numCmp m v v = 0 := by simp [numCmp]

theorem strCmp_self (m : Int) (v : String) : strCmp m v v = 0 := by simp [strCmp]

theorem filter_orderedInsert_of_key {α κ : Type} [DecidableEq κ] (key : α → κ)
    (r : α → α → Prop) [DecidableRel r]
    (hkey : ∀ a b, key a = key b → r a b) (k : κ) (a : α) :
    ∀ L : List α, (L.orderedInsert r a).filter (fun x => key x = k) =
      if key a = k then a :: L.filter (fun x => key x = k)
      else L.filter (fun x => key x = k) := by
  intro L
  induction L with
  | nil => by_cases hk : key a = k <;> simp [List.orderedInsert, hk]
  | cons b L ih =>
    simp only [List.orderedInsert]
    by_cases hab : r a b
    · rw [if_pos hab]
      by_cases hk : key a = k <;> by_cases hbk : key b = k <;>
        simp [List.filter_cons, hk, hbk]
    · have hne : key a ≠ key b := fun he => hab (hkey a b he)
      rw [if_neg hab]
      by_cases hk : key a = k
      · have hbk : ¬(key b = k) := fun he => hne (by rw [hk, he])
        simp [List.filter_cons, hbk, ih, hk]
      · by_cases hbk : key b = k <;> simp [List.filter_cons, hbk, ih, hk]

theorem filter_insertionSort_of_key {α κ : Type} [DecidableEq κ] (key : α → κ)
    (r : α → α → Prop) [DecidableRel r]
    (hkey : ∀ a b, key a = key b → r a b) (k : κ) :
    ∀ l : List α, (l.insertionSort r).filter (fun x => key x = k) =
      l.filter (fun x => key x = k) := by
  intro l
  induction l with
  | nil => rfl
  | cons a l ih =>
    simp only [List.insertionSort]
    rw [filter_orderedInsert_of_key key r hkey k a _, ih]
    by_cases hk : key a = k <;> simp [List.filter_cons, hk]

theorem sortComparator_of_eq_key (column direction : String) (a b : SortItem)
    (h : sortKey column a = sortKey column b) :
    sortComparator column direction a b ≤ 0 := by
  rw [sortComparator.eq_def]
  rw [sortKey.eq_def, sortKey.eq_def] at h
  split <;> dsimp only <;> split at h <;>
    first
      | (injection h with h2; rw [h2]; rw [strCmp_self])
      | (injection h with h2; rw [h2]; rw [numCmp_self])
      | exact le_refl 0

/-- The three items of the spec's sort example: values 5, 5, 1 on the numeric
`prob` column. -/
def sortItem1 : SortItem :=
  { card_id := "1", user_handle := none, liveWinProb := some 5,
    win_probability := none, change24h := none, high24h := none, low24h := none }

def sortItem2 : SortItem :=
  { card_id := "2", user_handle := none, liveWinProb := some 5,
    win_probability := none, change24h := none, high24h := none, low24h := none }

def sortItem3 : SortItem :=
  { card_id := "3", user_handle := none, liveWinProb := some 1,
    win_probability := none, change24h := none, high24h := none, low24h := none }

/-- Claim C7: `sortCards` is stable — items whose column key compares equal
keep their input relative order — and total on missing values (a missing
handle compares as the empty string, missing numeric values as 0); sorting
the items with values 5, 5, 1 by the numeric column descending yields ids
1, 2, 3, and ascending yields 3, 1, 2. -/
theorem sortCards_stable (column direction : String) (items : List SortItem)
    (k : String ⊕ ℚ) :
    (sortCards items column direction).filter (fun x => sortKey column x = k) =
      items.filter (fun x => sortKey column x = k) ∧
    sortCards [sortItem1, sortItem2, sortItem3] "prob" "desc" =
      [sortItem1, sortItem2, sortItem3] ∧
    sortCards [sortItem1, sortItem2, sortItem3] "prob" "asc" =
      [sortItem3, sortItem1, sortItem2] ∧
    (∀ a b : SortItem,
      sortComparator "handle" direction { a with user_handle := none } b =
        sortComparator "handle" direction { a with user_handle := some "" } b) ∧
    (∀ a b : SortItem,
      sortComparator "prob" direction
          { a with liveWinProb := none, win_probability := none } b =
        sortComparator "prob" direction
          { a with liveWinProb := none, win_probability := some 0 } b) := by
  refine ⟨?_, ?_, ?_, fun a b => rfl, fun a b => rfl⟩
  · exact filter_insertionSort_of_key (sortKey column)
      (fun a b => sortComparator column direction a b ≤ 0)
      (fun a b h => sortComparator_of_eq_key column direction a b h) k items
  · norm_num [sortCards, List.insertionSort, List.orderedInsert, sortComparator,
      numCmp, probVal, sortItem1, sortItem2, sortItem3]
  · norm_num [sortCards, List.insertionSort, List.orderedInsert, sortComparator,
      numCmp, probVal, sortItem1, sortItem2, sortItem3]
    decide

/-! ### Market aggregation (`collectUniqueMarkets`, app.js lines 970-1002) -/

/-- The fresh `MarketSnapshot` created on the first occurrence of a slug
(app.js lines 981-990). -/
def newMarket (cell : Cell) : MarketSnap :=
  { slug := cell.slug, question := cell.question, cardIds := [], cardHandles := [],
    currentProb := cell.prob,
    url := cell.url.getD ("https://manifold.markets/" ++ cell.slug),
    resolved := cell.resolved, contractId := none, isResolved := none,
    resolution := none }

/-- The reference update (app.js lines 993-997): append the owning card's id
and handle unless the id is already present. -/
def addCardRef (m : MarketSnap) (cid handle : String) : MarketSnap :=
  if cid ∈ m.cardIds then m
  else { m with cardIds := m.cardIds ++ [cid], cardHandles := m.cardHandles ++ [handle] }

/-- One inner-loop iteration of `collectUniqueMarkets`: the owning card's id
and handle together with the cell and its grid index. -/
structure Occ where
  cid : String
  handle : String
  idx : Fin 25
  cell : Cell
deriving DecidableEq

/-- The body of the inner loop of `collectUniqueMarkets` (app.js lines
976-998): skip free or slug-less cells, create the market on first sight,
then record the owning card.  The `Map` keyed by slug is modelled as the
insertion-ordered list of its values. -/
def stepMarket (ms : List MarketSnap) (o : Occ) : List MarketSnap :=
  if o.cell.slug = "" ∨ o.idx = FREE_SPACE_INDEX then ms
  else
    (if ms.any (fun m => m.slug = o.cell.slug) then ms
     else ms ++ [newMarket o.cell]).map
      fun m => if m.slug = o.cell.slug then addCardRef m o.cid o.handle else m

/-- The 25 inner-loop iterations contributed by one card (none when the card
has no grid, matching the `if (!card.grid) continue` guard). -/
def cardOccs (card : Card) : List Occ :=
  match card.grid with
  | none => []
  | some grid =>
    (List.finRange 25).map fun i => ⟨card.card_id, card.user_handle, i, grid i⟩

/-- `collectUniqueMarkets(cards)` (app.js lines 970-1002). -/
def collectUniqueMarkets (cards : List Card) : List MarketSnap :=
  cards.foldl (fun ms card => (cardOccs card).foldl stepMarket ms) []

/-- The flattened iteration sequence of `collectUniqueMarkets`. -/
def occList (cards : List Card) : List Occ := cards.flatMap cardOccs

/-- Whether an iteration survives the `!cell.slug || i === FREE_SPACE_INDEX`
guard. -/
def occValid (o : Occ) : Bool :=
  decide (¬(o.cell.slug = "" ∨ o.idx = FREE_SPACE_INDEX))

/-- First-occurrence deduplication with an accumulator: the fold that
`cardIds` (and the `Map` key set) performs. -/
def dedupFirstAux {α : Type} [DecidableEq α] (acc : List α) : List α → List α
  | [] => acc
  | x :: xs => if x ∈ acc then dedupFirstAux acc xs else dedupFirstAux (acc ++ [x]) xs

/-- Keep the first occurrence of every element, in order of first appearance. -/
def dedupFirst {α : Type} [DecidableEq α] (l : List α) : List α := dedupFirstAux [] l

theorem mem_dedupFirstAux {α : Type} [DecidableEq α] (y : α) :
    ∀ (xs acc : List α), y ∈ dedupFirstAux acc xs ↔ y ∈ acc ∨ y ∈ xs := by
  intro xs
  induction xs with
  | nil => intro acc; simp [dedupFirstAux]
  | cons x xs ih =>
    intro acc
    by_cases hx : x ∈ acc
    · rw [dedupFirstAux, if_pos hx, ih]
      constructor
      · rintro (h | h)
        · exact Or.inl h
        · exact Or.inr (List.mem_cons_of_mem x h)
      · rintro (h | h)
        · exact Or.inl h
        · rcases List.mem_cons.mp h with rfl | h2
          · exact Or.inl hx
          · exact Or.inr h2
    · rw [dedupFirstAux, if_neg hx, ih]
      simp [List.mem_append, List.mem_cons, or_assoc]

theorem mem_dedupFirst {α : Type} [DecidableEq α] (y : α) (xs : List α) :
    y ∈ dedupFirst xs ↔ y ∈ xs := by
  rw [dedupFirst, mem_dedupFirstAux]
  simp

theorem nodup_dedupFirstAux {α : Type} [DecidableEq α] :
    ∀ (xs acc : List α), acc.Nodup → (dedupFirstAux acc xs).Nodup := by
  intro xs
  induction xs with
  | nil => intro acc h; exact h
  | cons x xs ih =>
    intro acc h
    by_cases hx : x ∈ acc
    · rw [dedupFirstAux, if_pos hx]
      exact ih acc h
    · rw [dedupFirstAux, if_neg hx]
      refine ih (acc ++ [x]) ?_
      simp [List.nodup_append, h, hx]

theorem nodup_dedupFirst {α : Type} [DecidableEq α] (xs : List α) :
    (dedupFirst xs).Nodup :=
  nodup_dedupFirstAux xs [] List.nodup_nil

theorem dedupFirstAux_append {α : Type} [DecidableEq α] :
    ∀ (xs ys acc : List α),
      dedupFirstAux acc (xs ++ ys) = dedupFirstAux (dedupFirstAux acc xs) ys := by
  intro xs
  induction xs with
  | nil => intro ys acc; rfl
  | cons x xs ih =>
    intro ys acc
    by_cases hx : x ∈ acc
    · rw [List.cons_append, dedupFirstAux, if_pos hx, dedupFirstAux, if_pos hx, ih]
    · rw [List.cons_append, dedupFirstAux, if_neg hx, dedupFirstAux, if_neg hx, ih]

theorem dedupFirst_append_singleton {α : Type} [DecidableEq α] (xs : List α) (y : α) :
    dedupFirst (xs ++ [y]) =
      if y ∈ xs then dedupFirst xs else dedupFirst xs ++ [y] := by
  have h1 : dedupFirst (xs ++ [y]) = dedupFirstAux (dedupFirst xs) [y] := by
    rw [dedupFirst, dedupFirstAux_append, dedupFirst]
  rw [h1, dedupFirstAux]
  by_cases hy : y ∈ dedupFirst xs
  · rw [if_pos hy, if_pos ((mem_dedupFirst y xs).mp hy)]
    rfl
  · rw [if_neg hy, if_neg (fun hc => hy ((mem_dedupFirst y xs).mpr hc))]
    rfl

theorem dedupFirstAux_all_eq {α : Type} [DecidableEq α] (a : α) :
    ∀ (l acc : List α), (∀ y ∈ l, y = a) →
      dedupFirstAux acc l = if l ≠ [] ∧ a ∉ acc then acc ++ [a] else acc := by
  intro l
  induction l with
  | nil => intro acc _; simp [dedupFirstAux]
  | cons x xs ih =>
    intro acc hall
    have hx : x = a := hall x (List.mem_cons_self x xs)
    subst hx
    have hxs : ∀ y ∈ xs, y = x := fun y hy => hall y (List.mem_cons_of_mem x hy)
    by_cases hacc : x ∈ acc
    · rw [dedupFirstAux, if_pos hacc, ih acc hxs]
      simp [hacc]
    · rw [dedupFirstAux, if_neg hacc, ih (acc ++ [x]) hxs]
      simp [hacc]

theorem dedupFirstAux_flatMap {α β : Type} [DecidableEq α] (f : β → List α)
    (g : β → α) (hf : ∀ x, ∀ y ∈ f x, y = g x) :
    ∀ (xs : List β) (acc : List α),
      dedupFirstAux acc (xs.flatMap f) =
        dedupFirstAux acc ((xs.filter (fun x => !(f x).isEmpty)).map g) := by
  intro xs
  induction xs with
  | nil => intro acc; rfl
  | cons x xs ih =>
    intro acc
    rw [List.flatMap_cons, dedupFirstAux_append, dedupFirstAux_all_eq (g x) (f x) acc (hf x)]
    rw [List.filter_cons]
    by_cases hempty : (f x).isEmpty
    · have hnil : f x = [] := List.isEmpty_iff.mp hempty
      simp only [hempty, Bool.not_true, Bool.false_eq_true, if_false, if_neg, hnil]
      rw [ih]
      simp
    · have hne : f x ≠ [] := fun hc => hempty (by rw [hc]; rfl)
      by_cases hmem : g x ∈ acc
      · rw [if_neg (by simp [hmem]), ih]
        simp only [Bool.not_eq_true'] at hempty
        simp only [hempty, Bool.not_false, if_true, List.map_cons]
        rw [dedupFirstAux, if_pos hmem]
      · rw [if_pos ⟨hne, hmem⟩, ih]
        simp only [Bool.not_eq_true'] at hempty
        simp only [hempty, Bool.not_false, if_true, List.map_cons]
        rw [dedupFirstAux, if_neg hmem]

theorem addCardRef_slug (m : MarketSnap) (cid handle : String) :
    (addCardRef m cid handle).slug = m.slug := by
  rw [addCardRef]
  split <;> rfl

theorem anySlug_iff (ms : List MarketSnap) (s : String) :
    ms.any (fun m => m.slug = s) = true ↔ s ∈ ms.map MarketSnap.slug := by
  rw [List.any_eq_true]
  constructor
  · rintro ⟨m, hm, he⟩
    exact List.mem_map.mpr ⟨m, hm, of_decide_eq_true he⟩
  · intro h
    rcases List.mem_map.mp h with ⟨m, hm, he⟩
    exact ⟨m, hm, decide_eq_true he⟩

/-- The running state of `collectUniqueMarkets` over a flat iteration list. -/
def runMarkets (occs : List Occ) : List MarketSnap := occs.foldl stepMarket []

theorem runMarkets_append (occs : List Occ) (o : Occ) :
    runMarkets (occs ++ [o]) = stepMarket (runMarkets occs) o := by
  rw [runMarkets, runMarkets, List.foldl_append]
  rfl

theorem foldl_flatMap {α β γ : Type} (f : γ → List β) (step : α → β → α) :
    ∀ (xs : List γ) (init : α),
      (xs.flatMap f).foldl step init =
        xs.foldl (fun a x => (f x).foldl step a) init := by
  intro xs
  induction xs with
  | nil => intro init; rfl
  | cons x xs ih =>
    intro init
    rw [List.flatMap_cons, List.foldl_append, List.foldl_cons, ih]

theorem collectUniqueMarkets_eq_run (cards : List Card) :
    collectUniqueMarkets cards = runMarkets (occList cards) := by
  rw [collectUniqueMarkets, runMarkets, occList, foldl_flatMap]

theorem runMarkets_invariant :
    ∀ occs : List Occ,
      (runMarkets occs).map MarketSnap.slug =
        dedupFirst ((occs.filter occValid).map (fun oc => oc.cell.slug)) ∧
      ∀ m ∈ runMarkets occs,
        m.cardIds = dedupFirst
          (((occs.filter occValid).filter (fun oc => oc.cell.slug = m.slug)).map
            Occ.cid) := by
  intro occs
  induction occs using List.reverseRecOn with
  | nil =>
    refine ⟨rfl, ?_⟩
    intro m hm
    exact absurd hm (List.not_mem_nil m)
  | append_singleton occs o ih =>
    obtain ⟨ih1, ih2⟩ := ih
    rw [runMarkets_append, stepMarket]
    by_cases hval : o.cell.slug = "" ∨ o.idx = FREE_SPACE_INDEX
    · have hv : occValid o = false := by
        rw [occValid]
        exact decide_eq_false (not_not_intro hval)
      have hfo : List.filter occValid [o] = [] := by simp [List.filter_cons, hv]
      rw [if_pos hval, List.filter_append, hfo, List.append_nil]
      exact ⟨ih1, ih2⟩
    · have hv : occValid o = true := by
        rw [occValid]
        exact decide_eq_true hval
      have hfo : List.filter occValid [o] = [o] := by simp [List.filter_cons, hv]
      rw [if_neg hval, List.filter_append, hfo]
      by_cases hany : (runMarkets occs).any (fun m => m.slug = o.cell.slug) = true
      · rw [if_pos hany]
        have hsin : o.cell.slug ∈
            (occs.filter occValid).map (fun oc => oc.cell.slug) := by
          have h := (anySlug_iff (runMarkets occs) o.cell.slug).mp hany
          rw [ih1, mem_dedupFirst] at h
          exact h
        constructor
        · rw [List.map_map]
          have hcomp : (MarketSnap.slug ∘ fun m =>
              if m.slug = o.cell.slug then addCardRef m o.cid o.handle else m) =
              MarketSnap.slug := by
            funext m
            by_cases hm : m.slug = o.cell.slug
            · simp [hm, addCardRef_slug]
            · simp [hm]
          rw [hcomp, List.map_append]
          simp only [List.map_cons, List.map_nil]
          rw [dedupFirst_append_singleton, if_pos hsin, ih1]
        · intro m2 hm2
          rcases List.mem_map.mp hm2 with ⟨m, hm, rfl⟩
          by_cases hslug : m.slug = o.cell.slug
          · rw [if_pos hslug]
            simp only [addCardRef_slug, hslug]
            have hocc : List.filter (fun oc => oc.cell.slug = o.cell.slug) [o] = [o] := by
              simp [List.filter_cons]
            rw [List.filter_append, hocc, List.map_append]
            simp only [List.map_cons, List.map_nil]
            rw [dedupFirst_append_singleton]
            have hids := ih2 m hm
            rw [hslug] at hids
            rw [addCardRef]
            by_cases hcid : o.cid ∈ m.cardIds
            · rw [if_pos hcid]
              have hcf : o.cid ∈ ((occs.filter occValid).filter
                  (fun oc => oc.cell.slug = o.cell.slug)).map Occ.cid := by
                rw [← mem_dedupFirst, ← hids]
                exact hcid
              rw [if_pos hcf, ← hids]
            · rw [if_neg hcid]
              have hcf : o.cid ∉ ((occs.filter occValid).filter
                  (fun oc => oc.cell.slug = o.cell.slug)).map Occ.cid := by
                intro hc
                apply hcid
                rw [hids, mem_dedupFirst]
                exact hc
              rw [if_neg hcf, ← hids]
          · rw [if_neg hslug]
            have hocc : List.filter (fun oc => oc.cell.slug = m.slug) [o] = [] := by
              simp [List.filter_cons]
              intro hc
              exact hslug hc.symm
            rw [List.filter_append, hocc, List.append_nil]
            exact ih2 m hm
      · rw [if_neg hany]
        have hsnot : o.cell.slug ∉
            (occs.filter occValid).map (fun oc => oc.cell.slug) := by
          intro hc
          apply hany
          rw [anySlug_iff, ih1, mem_dedupFirst]
          exact hc
        constructor
        · rw [List.map_map]
          have hcomp : (MarketSnap.slug ∘ fun m =>
              if m.slug = o.cell.slug then addCardRef m o.cid o.handle else m) =
              MarketSnap.slug := by
            funext m
            by_cases hm : m.slug = o.cell.slug
            · simp [hm, addCardRef_slug]
            · simp [hm]
          rw [hcomp, List.map_append, List.map_append]
          simp only [List.map_cons, List.map_nil]
          rw [dedupFirst_append_singleton, if_neg hsnot, ih1]
          rfl
        · intro m2 hm2
          rcases List.mem_map.mp hm2 with ⟨m, hm, rfl⟩
          rcases List.mem_append.mp hm with hmin | hmnew
          · have hslug : ¬(m.slug = o.cell.slug) := by
              intro hc
              apply hany
              rw [anySlug_iff, List.mem_map]
              exact ⟨m, hmin, hc⟩
            rw [if_neg hslug]
            have hocc : List.filter (fun oc => oc.cell.slug = m.slug) [o] = [] := by
              simp [List.filter_cons]
              intro hc
              exact hslug hc.symm
            rw [List.filter_append, hocc, List.append_nil]
            exact ih2 m hmin
          · have hmeq : m = newMarket o.cell := by
              rcases List.mem_singleton.mp hmnew with rfl
              rfl
            subst hmeq
            have hslug : (newMarket o.cell).slug = o.cell.slug := rfl
            rw [if_pos hslug]
            simp only [addCardRef_slug, hslug]
            have hocc : List.filter (fun oc => oc.cell.slug = o.cell.slug) [o] = [o] := by
              simp [List.filter_cons]
            have hprev : List.filter (fun oc => oc.cell.slug = o.cell.slug)
                (occs.filter occValid) = [] := by
              rw [List.filter_eq_nil_iff]
              intro oc hoc hc
              apply hsnot
              rw [List.mem_map]
              exact ⟨oc, hoc, by simpa using hc⟩
            rw [List.filter_append, hocc, hprev, List.nil_append]
            rw [addCardRef]
            have : o.cid ∉ (newMarket o.cell).cardIds := by
              rw [newMarket]
              simp
            rw [if_neg this]
            rfl

/-- Whether `card` has a non-free, slug-bearing cell whose slug is `s`
(the cells `collectUniqueMarkets` actually visits for `s`). -/
def slugInCard (card : Card) (s : String) : Bool :=
  (cardOccs card).any (fun o => occValid o && decide (o.cell.slug = s))

theorem cardOccs_cid (card : Card) : ∀ o ∈ cardOccs card, o.cid = card.card_id := by
  intro o ho
  rw [cardOccs] at ho
  rcases hg : card.grid with _ | grid <;> rw [hg] at ho
  · exact absurd ho (List.not_mem_nil o)
  · rcases List.mem_map.mp ho with ⟨i, _, rfl⟩
    rfl

theorem not_isEmpty_filter_eq_any {α : Type} (p : α → Bool) (l : List α) :
    (!(l.filter p).isEmpty) = l.any p := by
  induction l with
  | nil => rfl
  | cons x xs ih =>
    rw [List.filter_cons, List.any_cons]
    by_cases hx : p x = true
    · simp [hx]
    · rw [Bool.not_eq_true] at hx
      simp [hx, ih]

theorem isEmpty_map {α β : Type} (f : α → β) (l : List α) :
    (l.map f).isEmpty = l.isEmpty := by
  cases l <;> rfl

/-- Claim C4: `collectUniqueMarkets` yields exactly one entry per distinct
slug appearing in a non-free cell of some card's grid, and each entry's
`cardIds` lists the ids of the referencing cards with no duplicates, in
order of first appearance. -/
theorem collectUniqueMarkets_spec (cards : List Card) :
    ((collectUniqueMarkets cards).map MarketSnap.slug).Nodup ∧
    (∀ s : String,
      (∃ m ∈ collectUniqueMarkets cards, m.slug = s) ↔
        (s ≠ "" ∧ ∃ c ∈ cards, slugInCard c s = true)) ∧
    (∀ m ∈ collectUniqueMarkets cards,
      m.cardIds.Nodup ∧
      m.cardIds = dedupFirst
        ((cards.filter (fun c => slugInCard c m.slug)).map Card.card_id)) := by
  obtain ⟨inv1, inv2⟩ := runMarkets_invariant (occList cards)
  rw [collectUniqueMarkets_eq_run]
  refine ⟨?_, ?_, ?_⟩
  · rw [inv1]
    exact nodup_dedupFirst _
  · intro s
    constructor
    · rintro ⟨m, hm, rfl⟩
      have hs : m.slug ∈ (runMarkets (occList cards)).map MarketSnap.slug :=
        List.mem_map_of_mem _ hm
      rw [inv1, mem_dedupFirst, List.mem_map] at hs
      rcases hs with ⟨o, ho, heq⟩
      rw [List.mem_filter] at ho
      obtain ⟨homem, hov⟩ := ho
      have hovp : ¬(o.cell.slug = "" ∨ o.idx = FREE_SPACE_INDEX) :=
        of_decide_eq_true hov
      constructor
      · intro hc
        exact hovp (Or.inl (by rw [heq, hc]))
      · rw [occList] at homem
        rcases List.mem_flatMap.mp homem with ⟨c, hcmem, hco⟩
        refine ⟨c, hcmem, ?_⟩
        rw [slugInCard, List.any_eq_true]
        refine ⟨o, hco, ?_⟩
        rw [hov, heq]
        simp
    · rintro ⟨_, c, hcmem, hcslug⟩
      rw [slugInCard, List.any_eq_true] at hcslug
      rcases hcslug with ⟨o, ho, hb⟩
      rw [Bool.and_eq_true] at hb
      obtain ⟨hov, hos⟩ := hb
      have hoseq : o.cell.slug = s := of_decide_eq_true hos
      have hmem : s ∈ (runMarkets (occList cards)).map MarketSnap.slug := by
        rw [inv1, mem_dedupFirst, List.mem_map]
        refine ⟨o, ?_, hoseq⟩
        rw [List.mem_filter]
        exact ⟨by rw [occList]; exact List.mem_flatMap.mpr ⟨c, hcmem, ho⟩, hov⟩
      rcases List.mem_map.mp hmem with ⟨m, hm, hms⟩
      exact ⟨m, hm, hms⟩
  · intro m hm
    have hids := inv2 m hm
    refine ⟨by rw [hids]; exact nodup_dedupFirst _, ?_⟩
    rw [hids, occList, List.filter_filter]
    have hcomb : (fun a => decide (a.cell.slug = m.slug) && occValid a) =
        (fun o : Occ => occValid o && decide (o.cell.slug = m.slug)) := by
      funext a
      exact Bool.and_comm _ _
    rw [hcomb, List.filter_flatMap, List.map_flatMap]
    rw [dedupFirst, dedupFirst]
    rw [dedupFirstAux_flatMap
      (fun c => ((cardOccs c).filter
        (fun o => occValid o && decide (o.cell.slug = m.slug))).map Occ.cid)
      Card.card_id ?hall cards []]
    case hall =>
      intro c y hy
      rcases List.mem_map.mp hy with ⟨o, ho, rfl⟩
      exact cardOccs_cid c o (List.mem_of_mem_filter ho)
    congr 1
    congr 1
    apply List.filter_congr
    intro c _
    rw [isEmpty_map]
    exact not_isEmpty_filter_eq_any _ _

/-- A cell pointing at market `sa`, shared by the two witness cards. -/
def sharedCell : Cell :=
  { question := "qa", slug := "sa", url := none, resolved := none, prob := 0,
    contract_id := none }

/-- A cell with no slug (skipped by the aggregation loop). -/
def blankCell : Cell :=
  { question := "", slug := "", url := none, resolved := none, prob := 0,
    contract_id := none }

def cardOne : Card :=
  { card_id := "c1", user_handle := "u1", status := "active",
    grid := some (fun i => if i.val = 0 then sharedCell else blankCell),
    win_probability := 0 }

def cardTwo : Card :=
  { card_id := "c2", user_handle := "u2", status := "active",
    grid := some (fun i => if i.val = 3 then sharedCell else blankCell),
    win_probability := 0 }

/-- The single market entry produced for the two witness cards. -/
def sharedMarket : MarketSnap :=
  { slug := "sa", question := "qa", cardIds := ["c1", "c2"],
    cardHandles := ["u1", "u2"], currentProb := 0,
    url := "https://manifold.markets/sa", resolved := none, contractId := none,
    isResolved := none, resolution := none }

theorem collectUniqueMarkets_spec_witness :
    sharedMarket ∈ collectUniqueMarkets [cardOne, cardTwo] ∧
    sharedMarket.cardIds = dedupFirst
      (([cardOne, cardTwo].filter
        (fun c => slugInCard c sharedMarket.slug)).map Card.card_id) :=
  ⟨by decide,
    ((collectUniqueMarkets_spec [cardOne, cardTwo]).2.2 sharedMarket (by decide)).2⟩

end ManifoldBingo
